import Mathlib

/-!
# Verification of the GPU active-set selector for GP regression

Shallow embedding of `src/src/gpu_active_set_selector.cpp`.  Device buffers
(`float*`) are embedded as functions `ℕ → ℚ` (exact arithmetic in place of
IEEE floats), matrices either as column-major flat buffers with a leading
dimension, mirroring the CUDA layout, or as Mathlib matrices where block
algebra is needed.  The external linear-algebra provider (cuBLAS/CULA) is
embedded through the contracts of the calls the source makes on it
(triangular solves, Cholesky factorization), as the design treats the
provider's internals as out of scope.  Real-valued scalar formulas
(`beta`, the squared-exponential kernel) are embedded over `ℝ`.
-/

namespace GpuActiveSetSelector

open Real Matrix

/-! ## Squared-exponential covariance (`SECovariance`, lines 40-47)

The C++ signature is `float SECovariance(float* x, float* y, int dim, int sigma)`;
the `sigma` parameter is declared `int`, so it is embedded as `ℤ`. -/

/-- The accumulation loop `for (i = 0; i < dim; i++) sum += (x[i]-y[i])*(x[i]-y[i])`
of `SECovariance`. -/
noncomputable def seSumLoop (x y : ℕ → ℝ) : ℕ → ℝ
  | 0 => 0
  | n + 1 => seSumLoop x y n + (x n - y n) * (x n - y n)

/-- `SECovariance` (lines 40-47): `exp(-sum / (2 * sigma))` after the
accumulation loop. -/
noncomputable def SECovariance (x y : ℕ → ℝ) (dim : ℕ) (sigma : ℤ) : ℝ :=
  Real.exp (-seSumLoop x y dim / (2 * (sigma : ℝ)))

/-! ## The confidence multiplier `beta`

`SelectChol` line 627 (and `SelectCG` line 409) before the loop:
`beta = 2 * log(numPoints * pow(M_PI,2) / (6 * tolerance))`.
`SelectChol` line 652 (and `SelectCG` line 460) inside the loop at counter `k`:
`beta = 2 * log(numPoints * pow(M_PI,2) * pow((k+1),2) / (6 * tolerance))`. -/

/-- The `beta` value computed before the selection loop (line 627 / line 409). -/
noncomputable def betaInitLoop (numPoints : ℕ) (tolerance : ℝ) : ℝ :=
  2 * Real.log ((numPoints : ℝ) * Real.pi ^ 2 / (6 * tolerance))

/-- The `beta` value recomputed at the top of selection iteration `k`
(line 652 / line 460). -/
noncomputable def betaIter (numPoints : ℕ) (tolerance : ℝ) (k : ℕ) : ℝ :=
  2 * Real.log ((numPoints : ℝ) * Real.pi ^ 2 * ((k : ℝ) + 1) ^ 2 / (6 * tolerance))

/-! ## Control skeleton of the `SelectChol` outer loop (lines 647-713)

```
unsigned int k;
for (k = 1; k < maxSize && nextIndex != -1; k++) {
  beta = 2 * log(numPoints * pow(M_PI,2) * pow((k+1),2) / (6 * tolerance));
  ... predict, find_best_active_set_candidate, read back nextIndex ...
  indices.push_back(nextIndex);
  if (nextIndex >= 0) { update_active_set_buffers(...); ... }
}
```
`find_best_active_set_candidate` together with the batched prediction pass is a
device-side computation whose read-back `nextIndex` drives the control flow; it
is embedded as an oracle `classify : ℕ → ℤ` giving the next index produced at
loop counter `k`.  `numActive` counts points admitted through
`update_active_set_buffers` (the seed point counts as the first). -/

structure CholLoopState where
  k : ℕ
  nextIndex : ℤ
  numActive : ℕ
  beta : ℝ
  indices : List ℤ

/-- One iteration of the `SelectChol` loop body (lines 648-713). -/
noncomputable def cholStep (classify : ℕ → ℤ) (numPoints : ℕ) (tolerance : ℝ)
    (s : CholLoopState) : CholLoopState :=
  let n := classify s.k
  { k := s.k + 1
    nextIndex := n
    numActive := if 0 ≤ n then s.numActive + 1 else s.numActive
    beta := betaIter numPoints tolerance s.k
    indices := s.indices ++ [n] }

/-- The `for (k = 1; k < maxSize && nextIndex != -1; k++)` loop, fuelled;
`selectCholRun` supplies fuel `maxSize`, which is enough since `k` starts at
`1` and increases by `1` every iteration. -/
noncomputable def selectCholGo (classify : ℕ → ℤ) (numPoints maxSize : ℕ)
    (tolerance : ℝ) : ℕ → CholLoopState → CholLoopState
  | 0, s => s
  | fuel + 1, s =>
    if s.k < maxSize ∧ s.nextIndex ≠ -1 then
      selectCholGo classify numPoints maxSize tolerance fuel
        (cholStep classify numPoints tolerance s)
    else s

/-- The `SelectChol` selection loop from its entry state: `k = 1`,
`nextIndex = 0`, one seed point admitted, `beta` from line 627, and the
seed index pushed on the trajectory (lines 627-648). -/
noncomputable def selectCholRun (classify : ℕ → ℤ) (numPoints maxSize : ℕ)
    (tolerance : ℝ) (firstIndex : ℤ) : CholLoopState :=
  selectCholGo classify numPoints maxSize tolerance maxSize
    ⟨1, 0, 1, betaInitLoop numPoints tolerance, [firstIndex]⟩

/-- The `maxSize` clamp at the entry of `SelectChol` (lines 556-559):
`if (maxSize > numPoints) { maxSize = numPoints; }`. -/
def cholClampMaxSize (maxSize numPoints : ℕ) : ℕ :=
  if maxSize > numPoints then numPoints else maxSize

/-! ## Control skeleton of the `SelectCG` outer loop (lines 415-468)

```
int numLeft = numPoints - 1;
for (unsigned int k = 1; k < maxSize && numLeft > 0; k++) {
  numLeft = 0;
  for (i...) if (unclassified) { numLeft++; GpPredictCG(...); }
  if (numLeft == 0) { continue; }
  find_best_active_set_candidate(...);
  update_active_set_buffers(...);
  ...
}
```
The recount of unclassified points is embedded as an oracle
`recount : ℕ → ℤ` of the loop counter. -/

structure CGLoopState where
  k : ℕ
  numLeft : ℤ
  numActive : ℕ

/-- One iteration of the `SelectCG` loop body (lines 415-468): recount
`numLeft`; if it is zero, `continue` (the update is skipped but `k++` still
runs); otherwise admit a point. -/
def cgSelectStep (recount : ℕ → ℤ) (s : CGLoopState) : CGLoopState :=
  let nl := recount s.k
  { k := s.k + 1
    numLeft := nl
    numActive := if nl = 0 then s.numActive else s.numActive + 1 }

/-- The `for (k = 1; k < maxSize && numLeft > 0; k++)` loop of `SelectCG`,
fuelled. -/
def selectCGGo (recount : ℕ → ℤ) (maxSize : ℕ) : ℕ → CGLoopState → CGLoopState
  | 0, s => s
  | fuel + 1, s =>
    if s.k < maxSize ∧ s.numLeft > 0 then
      selectCGGo recount maxSize fuel (cgSelectStep recount s)
    else s

/-- The `SelectCG` selection loop from its entry state: `k = 1`,
`numLeft = numPoints - 1` (line 411), one seed point admitted (line 398). -/
def selectCGRun (recount : ℕ → ℤ) (numPoints maxSize : ℕ) : CGLoopState :=
  selectCGGo recount maxSize maxSize ⟨1, (numPoints : ℤ) - 1, 1⟩

/-- The `maxSize` clamp at the entry of `SelectCG` (lines 360-363):
`if (maxSize > numPoints) { maxSize = numPoints; }`. -/
def cgClampMaxSize (maxSize numPoints : ℕ) : ℕ :=
  if maxSize > numPoints then numPoints else maxSize

/-! ## The conjugate-gradient solver `SolveLinearSystemCG` (lines 821-956)

Device buffers are embedded as functions `ℕ → ℚ`; the active kernel matrix is
its column-major flat buffer with leading dimension `maxActive`, exactly as
the `cublasSgemv` call reads it.  Each cuBLAS call is embedded by the
dense-linear-algebra operation it performs on the stated index ranges. -/

/-- `cublasSdot(handle, n, x, 1, y, 1, ..)`: dot product of the first `n`
entries of two buffers. -/
def dotN (n : ℕ) (x y : ℕ → ℚ) : ℚ := ∑ i ∈ Finset.range n, x i * y i

structure CGState where
  k : ℕ
  alpha : ℕ → ℚ
  r : ℕ → ℚ
  p : ℕ → ℚ
  q : ℕ → ℚ
  delta0 : ℚ
  delta1 : ℚ

/-- One iteration of the CG `while` body (lines 861-949):
`q = K·p` (`Sgemv` over `maxActive` rows and `numActive` columns, leading
dimension `maxActive`), `s = pᵗq`, `t = delta_1/s`, `alpha += t·p`,
`r += (-t)·q`, `delta_0 = delta_1`, `delta_1 = rᵗr`, `s = delta_0/delta_1`,
`p += s·r`, `p *= 1/s`, `k++` — the vector updates act on the first
`numActive` entries, as the `cublasSaxpy`/`cublasSscal` calls do. -/
def cgIter (K : ℕ → ℚ) (numActive maxActive : ℕ) (st : CGState) : CGState :=
  let q' := fun i => if i < maxActive then
      ∑ j ∈ Finset.range numActive, K (i + j * maxActive) * st.p j
    else st.q i
  let s := dotN numActive st.p q'
  let t := st.delta1 / s
  let alpha' := fun i => if i < numActive then st.alpha i + t * st.p i else st.alpha i
  let r' := fun i => if i < numActive then st.r i + -1 * t * q' i else st.r i
  let delta0' := st.delta1
  let delta1' := dotN numActive r' r'
  let s2 := delta0' / delta1'
  let p1 := fun i => if i < numActive then st.p i + s2 * r' i else st.p i
  let p2 := fun i => if i < numActive then 1 / s2 * p1 i else p1 i
  { k := st.k + 1, alpha := alpha', r := r', p := p2, q := q',
    delta0 := delta0', delta1 := delta1' }

/-- The `while (delta_1 > tolerance && k < maxActive)` loop (line 861),
fuelled; `SolveLinearSystemCG` supplies fuel `maxActive`, which is enough
since `k` starts at `0` and increases by `1` every iteration. -/
def cgLoopGo (K : ℕ → ℚ) (numActive maxActive : ℕ) (tolerance : ℚ) :
    ℕ → CGState → CGState
  | 0, st => st
  | fuel + 1, st =>
    if st.delta1 > tolerance ∧ st.k < maxActive then
      cgLoopGo K numActive maxActive tolerance fuel (cgIter K numActive maxActive st)
    else st

/-- The initial CG state (lines 824-852): `k = 0`, `alpha` zeroed over the
whole buffer (`cudaMemset`), `r` and `p` copies of `target`, and
`delta_0 = delta_1 = rᵗr` taken over `maxActive` entries (line 850). -/
def cgInit (target : ℕ → ℚ) (maxActive : ℕ) : CGState :=
  ⟨0, fun _ => 0, target, target, fun _ => 0,
    dotN maxActive target target, dotN maxActive target target⟩

/-- `SolveLinearSystemCG` (lines 821-956). -/
def SolveLinearSystemCG (K target : ℕ → ℚ) (numActive maxActive : ℕ)
    (tolerance : ℚ) : CGState :=
  cgLoopGo K numActive maxActive tolerance maxActive (cgInit target maxActive)

/-! ## The batched Cholesky prediction engine `GpPredictCholBatch` (lines 996-1064)

The Cholesky factor `d_L` is kept upper-triangular (`'U'` factorizations), so
the `cublasStrsm(..., CUBLAS_FILL_MODE_UPPER, CUBLAS_OP_T, ...)` call solves
`Lᵗ γ = kv` column by column; forward substitution on the transposed system is
the operation the provider contract specifies.  `compute_kernel_vector_batch`
and `norm_columns` are CUDA kernels of this repository that are not under
`src/`; they are modelled from the spec below. -/

/-- Forward substitution solving the triangular system `Lᵗ γ = b` (with `L`
upper triangular) for the first `n` unknowns, the operation performed by
`cublasStrsm(CUBLAS_SIDE_LEFT, CUBLAS_FILL_MODE_UPPER, CUBLAS_OP_T,
CUBLAS_DIAG_NON_UNIT, n, 1, ...)`: entry `j` is
`(b j - ∑_{i<j} L i j * γ i) / L j j`. -/
def fwdSolve (L : ℕ → ℕ → ℚ) (b : ℕ → ℚ) : ℕ → List ℚ
  | 0 => []
  | n + 1 =>
    let g := fwdSolve L b n
    g ++ [(b n - ∑ i ∈ Finset.range n, L i n * g.getD i 0) / L n n]

/-- Modelled from the spec: `norm_columns` (CUDA kernel, not under `src/`) —
"the reported `sigma[i]` is the squared norm of column `i` of `γ`"; the
squared norm of the first `n` entries of a solved column. -/
def sumSqN (n : ℕ) (g : List ℚ) : ℚ := ∑ i ∈ Finset.range n, g.getD i 0 ^ 2

/-- The Active-Set State read by prediction: `num_active`, `max_active`, the
kernel matrix and target buffers of `ActiveSetBuffers`, the Cholesky factor
`d_L` and solution vector `d_alpha` (the factor is embedded as an
index-pair function `ℕ → ℕ → ℚ`). -/
structure PredictState where
  numActive : ℕ
  maxActive : ℕ
  kernelMatrix : ℕ → ℚ
  targets : ℕ → ℚ
  L : ℕ → ℕ → ℚ
  alpha : ℕ → ℚ
  mu : ℕ → ℚ
  sigma : ℕ → ℚ

/-- `GpPredictCholBatch` (lines 996-1064) for query indices
`[index, index + batchSize)`.  `kv` is the kernel-vector oracle, modelled
from the spec: `compute_kernel_vector_batch` (CUDA kernel, not under `src/`)
"form[s] the kernel vector between each query point and every active point";
`kv i a` is the covariance between query point `i` and active point `a`.
The body: copy the kernel vectors into `d_gamma`, solve the triangular
systems `Lᵗ γ = kv` (`cublasStrsm`, `CUBLAS_OP_T`), write the means
`alphaᵗ · kv` into `d_mu + index` (`cublasSgemv`, `CUBLAS_OP_T`) and the
squared column norms of `γ` into `d_sigma + index` (`norm_columns`). -/
def GpPredictCholBatch (kv : ℕ → ℕ → ℚ) (st : PredictState)
    (index batchSize : ℕ) : PredictState :=
  { st with
    mu := fun i => if index ≤ i ∧ i < index + batchSize then
        dotN st.numActive st.alpha (kv i)
      else st.mu i
    sigma := fun i => if index ≤ i ∧ i < index + batchSize then
        sumSqN st.numActive (fwdSolve st.L (kv i) st.numActive)
      else st.sigma i }

/-! ## Error evaluation `EvaluateErrors` (lines 145-200)

The boost accumulators are external; `mean` is the sample mean,
`moment<2>` the raw second moment (the "standard deviation proxy"), `min`
and `max` the running extrema of the accumulated samples.  The `median`
accumulator (a P-square quantile estimator) is kept abstract as a function
of the accumulated sample list. -/

structure PredictionError where
  mean : ℚ
  std : ℚ
  median : ℚ
  max : ℚ
  min : ℚ
deriving DecidableEq

/-- The accumulation loop of `EvaluateErrors` (lines 163-181): the absolute
errors `|predictions[i] - targets[i]|` of exactly the points with
`active[i] == 0`, in scan order. -/
def absErrorList (predictions targets : ℕ → ℚ) (active : ℕ → ℕ)
    (numPts : ℕ) : List ℚ :=
  (List.range numPts).filterMap fun i =>
    if active i = 0 then some |predictions i - targets i| else none

/-- `EvaluateErrors` (lines 145-200): all five statistics are zeroed, then
filled from the accumulators only when `numTest > 0`. -/
def EvaluateErrors (medianStat : List ℚ → ℚ) (predictions targets : ℕ → ℚ)
    (active : ℕ → ℕ) (numPts : ℕ) : PredictionError :=
  let errs := absErrorList predictions targets active numPts
  if 0 < errs.length then
    { mean := errs.sum / errs.length
      std := (errs.map fun e => e * e).sum / errs.length
      median := medianStat errs
      max := (errs.max?).getD 0
      min := (errs.min?).getD 0 }
  else ⟨0, 0, 0, 0, 0⟩

/-! ## Rank-1 Cholesky update `UpdateChol` (lines 1114-1184) versus full
re-factorization `SolveLinearSystemChol` (lines 1066-1112)

Both paths keep `d_L` upper triangular with `K = Lᵗ L` on the leading
`num_active` block (`culaDeviceSpotrf('U', ...)`), and both produce `alpha`
through `Lᵗ y = t`, `L alpha = y` (`culaDeviceSpotrs('U', ...)`, resp. the
two `cublasStrsm` calls at lines 1167-1172), i.e. `Lᵗ L alpha = t`.
The update path extends the factor by one column: the solved column `c`
(`cublasStrsm` on `Lᵗ c = k_new`, lines 1127-1129, placed at lines 1143),
and the new diagonal entry `d` (`compute_sqrt_var`, line 1146 — a CUDA
kernel not under `src/`, modelled from the spec as
"`sqrt(k(new,new) - ‖column‖²)`", so `d² = κ - ‖c‖²`).  The extension is
embedded with Mathlib block matrices over `ℚ`. -/

/-- The extended Cholesky factor built by `UpdateChol` (lines 1143-1150):
the previous factor `U`, the solved column `c` in the new column, zeros
below, and the new diagonal entry `d`. -/
def updateCholFactor {n : ℕ} (U : Matrix (Fin n) (Fin n) ℚ)
    (c : Matrix (Fin n) (Fin 1) ℚ) (d : ℚ) :
    Matrix (Fin n ⊕ Fin 1) (Fin n ⊕ Fin 1) ℚ :=
  Matrix.fromBlocks U c 0 (d • 1)

/-- The kernel matrix after `update_active_set_buffers` admits one point:
the previous active kernel matrix `K` bordered by the new covariance column
`k`, its transpose, and the self-covariance `κ`. -/
def extendKernel {n : ℕ} (K : Matrix (Fin n) (Fin n) ℚ)
    (k : Matrix (Fin n) (Fin 1) ℚ) (κ : ℚ) :
    Matrix (Fin n ⊕ Fin 1) (Fin n ⊕ Fin 1) ℚ :=
  Matrix.fromBlocks K k kᵀ (κ • 1)

/-! ## Concrete instances used to exhibit counterexamples and witnesses -/

/-- Column-major active kernel buffer of a run with `num_active = 1`,
`max_active = 2`: the single active covariance entry is `1`. -/
def cgCexKernel : ℕ → ℚ := fun idx => if idx = 0 then 1 else 0

/-- Target buffer of the same run: `targets[0] = 1`. -/
def cgCexTarget : ℕ → ℚ := fun i => if i = 0 then 1 else 0

/-- A prediction state with two active points and the identity as Cholesky
factor. -/
def predictWitnessState : PredictState :=
  ⟨2, 2, fun _ => 0, fun _ => 0, fun a b => if a = b then 1 else 0,
    fun _ => 0, fun i => (i : ℚ), fun i => (i : ℚ) + 7⟩

/-- A kernel-vector oracle with value `r + 1` against active point `r`. -/
def predictWitnessKv : ℕ → ℕ → ℚ := fun _ r => (r : ℚ) + 1

/-! # Theorems -/

/-- C8: for every pair of input vectors `x, y` of dimension `dim` and every
hyperparameter `sigma`, the squared-exponential covariance function
`SECovariance` returns `exp(-‖x-y‖² / (2·sigma))`. -/
theorem SECovariance_closed_form (x y : ℕ → ℝ) (dim : ℕ) (sigma : ℤ) :
    SECovariance x y dim sigma
      = Real.exp (-(∑ i ∈ Finset.range dim, (x i - y i) ^ 2) / (2 * (sigma : ℝ))) := by
  have h : seSumLoop x y dim = ∑ i ∈ Finset.range dim, (x i - y i) ^ 2 := by
    induction dim with
    | zero => simp [seSumLoop]
    | succ n ih => rw [seSumLoop, ih, Finset.sum_range_succ]; ring
  rw [SECovariance, h]

/-- C3: at every selection iteration `k ≥ 1` the confidence multiplier is
recomputed — not cached, since the step result does not depend on the `beta`
stored in the incoming state — as `beta_k = 2·ln(N·π²·(k+1)²/(6·tolerance))`,
and the value used before the loop equals the same formula at `k = 0`, where
`(k+1)² = 1`. -/
theorem beta_schedule_closed_form (N : ℕ) (tol : ℝ) (classify : ℕ → ℤ) :
    betaInitLoop N tol = betaIter N tol 0 ∧
    (∀ k, betaIter N tol k
        = 2 * Real.log ((N : ℝ) * Real.pi ^ 2 * ((k : ℝ) + 1) ^ 2 / (6 * tol))) ∧
    (∀ s s' : CholLoopState, s.k = s'.k →
        (cholStep classify N tol s).beta = (cholStep classify N tol s').beta) := by
  refine ⟨?_, fun k => rfl, fun s s' h => ?_⟩
  · unfold betaInitLoop betaIter
    norm_num
  · simp [cholStep, h]

/-- Witness for C3: two loop states at the same counter but with different
stored `beta` values produce the same recomputed `beta`. -/
theorem beta_schedule_witness :
    (1 : ℕ) = 1 ∧
    (cholStep (fun _ => 0) 4 1 ⟨1, 0, 1, 0, []⟩).beta
      = (cholStep (fun _ => 0) 4 1 ⟨1, 5, 2, 99, [3]⟩).beta :=
  ⟨rfl, (beta_schedule_closed_form 4 1 (fun _ => 0)).2.2 ⟨1, 0, 1, 0, []⟩ ⟨1, 5, 2, 99, [3]⟩ rfl⟩

/-- C9: for fixed pool size `N ≥ 1` and fixed tolerance `> 0`, the sequence
`beta_k` computed by the selection loops is non-decreasing in the iteration
count `k`. -/
theorem betaIter_monotone (N : ℕ) (tol : ℝ) (hN : 1 ≤ N) (htol : 0 < tol) :
    Monotone (betaIter N tol) := by
  apply monotone_nat_of_le_succ
  intro k
  unfold betaIter
  have hNpos : (0 : ℝ) < (N : ℝ) := by exact_mod_cast Nat.lt_of_lt_of_le Nat.zero_lt_one hN
  have hbase : (0 : ℝ) < (N : ℝ) * Real.pi ^ 2 * ((k : ℝ) + 1) ^ 2 / (6 * tol) := by
    have := Real.pi_pos
    positivity
  have harg : (N : ℝ) * Real.pi ^ 2 * ((k : ℝ) + 1) ^ 2 / (6 * tol)
      ≤ (N : ℝ) * Real.pi ^ 2 * (((k : ℕ) + 1 : ℕ) + 1 : ℝ) ^ 2 / (6 * tol) := by
    gcongr
    linarith
  have hlog := Real.log_le_log hbase harg
  have h2 : (0 : ℝ) ≤ 2 := by norm_num
  calc 2 * Real.log ((N : ℝ) * Real.pi ^ 2 * ((k : ℝ) + 1) ^ 2 / (6 * tol))
      ≤ 2 * Real.log ((N : ℝ) * Real.pi ^ 2 * (((k : ℕ) + 1 : ℕ) + 1 : ℝ) ^ 2 / (6 * tol)) :=
        mul_le_mul_of_nonneg_left hlog h2
    _ = 2 * Real.log ((N : ℝ) * Real.pi ^ 2 * (((k + 1 : ℕ) : ℝ) + 1) ^ 2 / (6 * tol)) := by
        push_cast; ring_nf

/-- Witness for C9: the bound applied at `N = 2`, `tolerance = 1`, from
iteration `0` to iteration `1`. -/
theorem betaIter_monotone_witness :
    (1 ≤ 2 ∧ (0 : ℝ) < 1) ∧ betaIter 2 1 0 ≤ betaIter 2 1 1 :=
  ⟨⟨by decide, one_pos⟩, betaIter_monotone 2 1 (by decide) one_pos (by decide : (0 : ℕ) ≤ 1)⟩

/-- With enough fuel, the `SelectChol` loop runs until its `for` condition
`k < maxSize && nextIndex != -1` fails: the final state has either
`maxSize ≤ k` or the sentinel next-index. -/
lemma selectCholGo_end (classify : ℕ → ℤ) (numPoints maxSize : ℕ) (tol : ℝ) :
    ∀ fuel s, maxSize - s.k ≤ fuel →
      maxSize ≤ (selectCholGo classify numPoints maxSize tol fuel s).k ∨
        (selectCholGo classify numPoints maxSize tol fuel s).nextIndex = -1 := by
  intro fuel
  induction fuel with
  | zero =>
    intro s h
    simp only [selectCholGo]
    left
    omega
  | succ fuel ih =>
    intro s h
    by_cases hc : s.k < maxSize ∧ s.nextIndex ≠ -1
    · simp only [selectCholGo, if_pos hc]
      refine ih _ ?_
      show maxSize - (s.k + 1) ≤ fuel
      omega
    · simp only [selectCholGo, if_neg hc]
      push_neg at hc
      rcases Nat.lt_or_ge s.k maxSize with h1 | h1
      · right; exact hc h1
      · left; exact h1

/-- C2 (amended): in the `SelectChol` loop, an iteration in which
classification returns the sentinel next-index (`-1`) admits no point
(it is a no-op on the active-set count), and the loop then exits at the next
check of its condition `k < maxSize && nextIndex != -1` — it does not remain
in the `Selecting` state; the loop ends either because the iteration bound
`maxSize` is exhausted or because a sentinel was produced. -/
theorem selectChol_sentinel_exits (classify : ℕ → ℤ) (numPoints maxSize : ℕ)
    (tol : ℝ) (firstIndex : ℤ) :
    (∀ s : CholLoopState, classify s.k = -1 →
        (cholStep classify numPoints tol s).numActive = s.numActive ∧
        (cholStep classify numPoints tol s).nextIndex = -1) ∧
    (∀ fuel (s : CholLoopState), s.nextIndex = -1 →
        selectCholGo classify numPoints maxSize tol fuel s = s) ∧
    (maxSize ≤ (selectCholRun classify numPoints maxSize tol firstIndex).k ∨
      (selectCholRun classify numPoints maxSize tol firstIndex).nextIndex = -1) := by
  refine ⟨fun s hs => ?_, fun fuel s hs => ?_, ?_⟩
  · constructor
    · simp [cholStep, hs]
    · simp [cholStep, hs]
  · cases fuel with
    | zero => rfl
    | succ fuel => simp [selectCholGo, hs]
  · exact selectCholGo_end classify numPoints maxSize tol maxSize _ (by omega)

/-- Witness for C2 (amended): a sentinel classification at counter `1`
leaves the admitted count at `1` and records the sentinel, after which the
loop exits. -/
theorem selectChol_sentinel_exits_witness :
    ((fun _ : ℕ => (-1 : ℤ)) 1 = -1) ∧
    (cholStep (fun _ => -1) 100 1 ⟨1, 0, 1, 0, []⟩).numActive = 1 ∧
    (cholStep (fun _ => -1) 100 1 ⟨1, 0, 1, 0, []⟩).nextIndex = -1 :=
  ⟨rfl, (selectChol_sentinel_exits (fun _ => -1) 100 5 1 7).1 ⟨1, 0, 1, 0, []⟩ rfl⟩

/-- Counterexample for C2 as stated: with a pool of `100` points,
`maxSize = 5`, and classification returning the sentinel `-1` on the very
first loop iteration, the `SelectChol` loop stops with `k = 2` — it does
not keep iterating until the `maxSize` bound (`k` would be `5`), so a
sentinel does end the loop, not only exhaustion of the iteration bound. -/
theorem selectChol_sentinel_counterexample :
    (selectCholRun (fun _ => -1) 100 5 1 7).k = 2 ∧
    (selectCholRun (fun _ => -1) 100 5 1 7).k ≠ 5 ∧
    (selectCholRun (fun _ => -1) 100 5 1 7).numActive = 1 ∧
    (selectCholRun (fun _ => -1) 100 5 1 7).nextIndex = -1 := by
  have h : (selectCholRun (fun _ => -1) 100 5 1 7).k = 2 := rfl
  exact ⟨h, by rw [h]; decide, rfl, rfl⟩

/-- The number of points admitted by the `SelectChol` loop never exceeds
`max s.k maxSize` when it is at most the loop counter at entry. -/
lemma selectCholGo_numActive_le (classify : ℕ → ℤ) (numPoints maxSize : ℕ) (tol : ℝ) :
    ∀ fuel s, s.numActive ≤ s.k →
      (selectCholGo classify numPoints maxSize tol fuel s).numActive ≤
        max s.k maxSize := by
  intro fuel
  induction fuel with
  | zero =>
    intro s h
    simp only [selectCholGo]
    omega
  | succ fuel ih =>
    intro s h
    by_cases hc : s.k < maxSize ∧ s.nextIndex ≠ -1
    · simp only [selectCholGo, if_pos hc]
      have hstep : (cholStep classify numPoints tol s).numActive ≤
          (cholStep classify numPoints tol s).k := by
        simp only [cholStep]
        split <;> omega
      have := ih (cholStep classify numPoints tol s) hstep
      have hk : (cholStep classify numPoints tol s).k = s.k + 1 := rfl
      omega
    · simp only [selectCholGo, if_neg hc]
      omega

/-- The number of points admitted by the `SelectCG` loop never exceeds
`max s.k maxSize` when it is at most the loop counter at entry. -/
lemma selectCGGo_numActive_le (recount : ℕ → ℤ) (maxSize : ℕ) :
    ∀ fuel s, s.numActive ≤ s.k →
      (selectCGGo recount maxSize fuel s).numActive ≤ max s.k maxSize := by
  intro fuel
  induction fuel with
  | zero =>
    intro s h
    simp only [selectCGGo]
    omega
  | succ fuel ih =>
    intro s h
    by_cases hc : s.k < maxSize ∧ s.numLeft > 0
    · simp only [selectCGGo, if_pos hc]
      have hstep : (cgSelectStep recount s).numActive ≤ (cgSelectStep recount s).k := by
        simp only [cgSelectStep]
        split <;> omega
      have := ih (cgSelectStep recount s) hstep
      have hk : (cgSelectStep recount s).k = s.k + 1 := rfl
      omega
    · simp only [selectCGGo, if_neg hc]
      omega

/-- C10: both `SelectChol` and `SelectCG` clamp the requested active-set cap
`maxSize` down to `numPoints` at entry, so for a non-empty pool the number
of admitted points (the seed plus one point per admitting iteration) never
exceeds the pool size, whatever cap the caller requests and whatever the
classification oracles report. -/
theorem clamp_admitted_le_pool (m n : ℕ) (classify recount : ℕ → ℤ) (tol : ℝ)
    (firstIndex : ℤ) (hn : 1 ≤ n) :
    cholClampMaxSize m n ≤ n ∧ cgClampMaxSize m n ≤ n ∧
    (selectCholRun classify n (cholClampMaxSize m n) tol firstIndex).numActive ≤ n ∧
    (selectCGRun recount n (cgClampMaxSize m n)).numActive ≤ n := by
  have h1 : cholClampMaxSize m n ≤ n := by
    unfold cholClampMaxSize; split <;> omega
  have h2 : cgClampMaxSize m n ≤ n := by
    unfold cgClampMaxSize; split <;> omega
  refine ⟨h1, h2, ?_, ?_⟩
  · have hb := selectCholGo_numActive_le classify n (cholClampMaxSize m n) tol
      (cholClampMaxSize m n) ⟨1, 0, 1, betaInitLoop n tol, [firstIndex]⟩ le_rfl
    have hk : (⟨1, 0, 1, betaInitLoop n tol, [firstIndex]⟩ : CholLoopState).k = 1 := rfl
    rw [hk] at hb
    simp only [selectCholRun]
    omega
  · have hb := selectCGGo_numActive_le recount (cgClampMaxSize m n)
      (cgClampMaxSize m n) ⟨1, (n : ℤ) - 1, 1⟩ le_rfl
    have hk : (⟨1, (n : ℤ) - 1, 1⟩ : CGLoopState).k = 1 := rfl
    rw [hk] at hb
    simp only [selectCGRun]
    omega

/-- Witness for C10: a requested cap of `10` on a pool of `3` points leaves
at most `3` admitted points on both selection paths. -/
theorem clamp_admitted_le_pool_witness :
    (1 ≤ 3) ∧
    (cholClampMaxSize 10 3 ≤ 3 ∧ cgClampMaxSize 10 3 ≤ 3 ∧
      (selectCholRun (fun _ => 0) 3 (cholClampMaxSize 10 3) 1 0).numActive ≤ 3 ∧
      (selectCGRun (fun _ => 1) 3 (cgClampMaxSize 10 3)).numActive ≤ 3) :=
  ⟨by decide, clamp_admitted_le_pool 10 3 (fun _ => 0) (fun _ => 1) 1 0 (by decide)⟩

/-- With enough fuel, the CG `while` loop runs until its condition
`delta_1 > tolerance && k < maxActive` fails, and `k` never exceeds
`maxActive`. -/
lemma cgLoopGo_spec (K : ℕ → ℚ) (n m : ℕ) (tol : ℚ) :
    ∀ fuel st, st.k ≤ m → m - st.k ≤ fuel →
      (cgLoopGo K n m tol fuel st).k ≤ m ∧
      ((cgLoopGo K n m tol fuel st).delta1 ≤ tol ∨
        (cgLoopGo K n m tol fuel st).k = m) := by
  intro fuel
  induction fuel with
  | zero =>
    intro st hk h
    simp only [cgLoopGo]
    omega
  | succ fuel ih =>
    intro st hk h
    by_cases hc : st.delta1 > tol ∧ st.k < m
    · simp only [cgLoopGo, if_pos hc]
      have hk' : (cgIter K n m st).k = st.k + 1 := rfl
      refine ih _ (by omega) (by omega)
    · simp only [cgLoopGo, if_neg hc]
      push_neg at hc
      rcases le_or_lt st.delta1 tol with h1 | h1
      · exact ⟨hk, Or.inl h1⟩
      · exact ⟨hk, Or.inr (by have := hc h1; omega)⟩

/-- C4 (amended): `SolveLinearSystemCG` initializes `alpha = 0`,
`r = targets`, `p = r`, and iterates until the residual squared norm drops
to or below `tolerance` or the iteration count reaches `max_active` — the
allocated active-set capacity, which bounds the loop (`k < maxActive` at
line 861), not the current active-set size `num_active`. -/
theorem SolveLinearSystemCG_behavior (K target : ℕ → ℚ) (n m : ℕ) (tol : ℚ) :
    (cgInit target m).alpha = (fun _ => 0) ∧
    (cgInit target m).r = target ∧
    (cgInit target m).p = (cgInit target m).r ∧
    (SolveLinearSystemCG K target n m tol).k ≤ m ∧
    ((SolveLinearSystemCG K target n m tol).delta1 ≤ tol ∨
      (SolveLinearSystemCG K target n m tol).k = m) := by
  have h := cgLoopGo_spec K n m tol m (cgInit target m) (Nat.zero_le m) (by omega)
  exact ⟨rfl, rfl, rfl, h.1, h.2⟩

/-- Counterexample for C4 as stated: a run with `num_active = 1`,
`max_active = 2`, and `tolerance = -1`.  The residual squared norm is a sum
of squares, so it never drops to or below the tolerance (it is `1` at entry
and still above the tolerance after the first iteration), yet the loop does
not stop after `num_active = 1` iterations: it runs on to `k = 2 = max_active`.
The loop bound is `max_active`, not `num_active`. -/
theorem SolveLinearSystemCG_counterexample :
    (cgInit cgCexTarget 2).delta1 = 1 ∧
    (cgLoopGo cgCexKernel 1 2 (-1) 1 (cgInit cgCexTarget 2)).k = 1 ∧
    (cgLoopGo cgCexKernel 1 2 (-1) 1 (cgInit cgCexTarget 2)).delta1 > -1 ∧
    (SolveLinearSystemCG cgCexKernel cgCexTarget 1 2 (-1)).k = 2 := by
  refine ⟨?_, ?_, ?_, ?_⟩ <;>
    norm_num [SolveLinearSystemCG, cgLoopGo, cgInit, cgIter, dotN,
      cgCexKernel, cgCexTarget, Finset.sum_range_succ]

/-- C7: the prediction-error summary of `EvaluateErrors` accumulates only
points whose active flag is `0`: the five statistics are unchanged under any
change of predictions and targets at active points, and when no inactive
point exists all five statistics are `0`. -/
theorem EvaluateErrors_inactive_only (medianStat : List ℚ → ℚ) (active : ℕ → ℕ)
    (numPts : ℕ) :
    (∀ p₁ t₁ p₂ t₂ : ℕ → ℚ,
        (∀ i, i < numPts → active i = 0 → p₁ i = p₂ i ∧ t₁ i = t₂ i) →
        EvaluateErrors medianStat p₁ t₁ active numPts
          = EvaluateErrors medianStat p₂ t₂ active numPts) ∧
    (∀ p t : ℕ → ℚ, (∀ i, i < numPts → active i ≠ 0) →
        EvaluateErrors medianStat p t active numPts = ⟨0, 0, 0, 0, 0⟩) := by
  constructor
  · intro p₁ t₁ p₂ t₂ hagree
    have herrs : absErrorList p₁ t₁ active numPts = absErrorList p₂ t₂ active numPts := by
      unfold absErrorList
      apply List.filterMap_congr
      intro i hi
      have hi' : i < numPts := List.mem_range.mp hi
      by_cases h0 : active i = 0
      · obtain ⟨hp, ht⟩ := hagree i hi' h0
        simp [h0, hp, ht]
      · simp [h0]
    unfold EvaluateErrors
    rw [herrs]
  · intro p t hact
    have herrs : absErrorList p t active numPts = [] := by
      unfold absErrorList
      rw [List.filterMap_eq_nil_iff]
      intro i hi
      simp [hact i (List.mem_range.mp hi)]
    unfold EvaluateErrors
    rw [herrs]
    simp

/-- Witness for C7: a pool of two points that are both active produces the
all-zero error summary. -/
theorem EvaluateErrors_witness :
    (∀ i, i < 2 → (fun _ : ℕ => 1) i ≠ 0) ∧
    EvaluateErrors (fun _ => 0) (fun _ => 5) (fun _ => 3) (fun _ => 1) 2
      = ⟨0, 0, 0, 0, 0⟩ := by
  have h : ∀ i, i < 2 → (fun _ : ℕ => (1 : ℕ)) i ≠ 0 := fun i _ => one_ne_zero
  exact ⟨h, (EvaluateErrors_inactive_only (fun _ => 0) (fun _ => 1) 2).2
    (fun _ => 5) (fun _ => 3) h⟩

/-- The forward-substitution result has one entry per solved unknown. -/
lemma fwdSolve_length (L : ℕ → ℕ → ℚ) (b : ℕ → ℚ) :
    ∀ n, (fwdSolve L b n).length = n := by
  intro n
  induction n with
  | zero => rfl
  | succ n ih => simp [fwdSolve, ih]

/-- Already-solved entries are unchanged by solving further unknowns. -/
lemma fwdSolve_getD_stable (L : ℕ → ℕ → ℚ) (b : ℕ → ℚ) :
    ∀ m n i, n ≤ m → i < n →
      (fwdSolve L b m).getD i 0 = (fwdSolve L b n).getD i 0 := by
  intro m
  induction m with
  | zero =>
    intro n i hnm hin
    omega
  | succ m ih =>
    intro n i hnm hin
    rcases Nat.eq_or_lt_of_le hnm with h | h
    · rw [h]
    · have hnm' : n ≤ m := by omega
      have hi : i < (fwdSolve L b m).length := by
        rw [fwdSolve_length]; omega
      calc (fwdSolve L b (m + 1)).getD i 0
          = (fwdSolve L b m).getD i 0 := List.getD_append _ _ _ _ hi
        _ = (fwdSolve L b n).getD i 0 := ih n i hnm' hin

/-- The defining equation of entry `r` of the forward substitution. -/
lemma fwdSolve_getD_eq (L : ℕ → ℕ → ℚ) (b : ℕ → ℚ) (n r : ℕ) (hr : r < n) :
    (fwdSolve L b n).getD r 0
      = (b r - ∑ i ∈ Finset.range r, L i r * (fwdSolve L b n).getD i 0) / L r r := by
  have h1 : (fwdSolve L b n).getD r 0 = (fwdSolve L b (r + 1)).getD r 0 :=
    fwdSolve_getD_stable L b n (r + 1) r (by omega) (by omega)
  have hlen : (fwdSolve L b r).length ≤ r := by rw [fwdSolve_length]
  have h2 : (fwdSolve L b (r + 1)).getD r 0
      = (b r - ∑ i ∈ Finset.range r, L i r * (fwdSolve L b r).getD i 0) / L r r := by
    show ((fwdSolve L b r) ++ [_]).getD r 0 = _
    rw [List.getD_append_right _ _ _ _ hlen, fwdSolve_length]
    simp
  rw [h1, h2]
  congr 1
  congr 1
  apply Finset.sum_congr rfl
  intro i hi
  rw [fwdSolve_getD_stable L b n r i (by omega) (Finset.mem_range.mp hi)]

/-- The forward substitution solves the transposed upper-triangular system:
for every row `r < n` of `Lᵗ γ = b`, the residual vanishes. -/
lemma fwdSolve_solves (L : ℕ → ℕ → ℚ) (b : ℕ → ℚ) (n : ℕ)
    (hUT : ∀ a b', b' < a → L a b' = 0)
    (hdiag : ∀ a, a < n → L a a ≠ 0) :
    ∀ r, r < n →
      ∑ i ∈ Finset.range n, L i r * (fwdSolve L b n).getD i 0 = b r := by
  intro r hr
  have hsplit : ∑ i ∈ Finset.range (r + 1), L i r * (fwdSolve L b n).getD i 0
      = ∑ i ∈ Finset.range n, L i r * (fwdSolve L b n).getD i 0 := by
    apply Finset.sum_subset (Finset.range_subset.mpr (by omega))
    intro i _ hnotin
    have hri : r < i := by
      have := Finset.mem_range.not.mp hnotin
      omega
    rw [hUT i r hri, zero_mul]
  rw [← hsplit, Finset.sum_range_succ, fwdSolve_getD_eq L b n r hr,
    mul_comm, div_mul_cancel₀ _ (hdiag r hr)]
  ring

/-- C5: for every predicted query point, the `sigma` reported by
`GpPredictCholBatch` equals the squared norm of the corresponding column of
`γ`, where `γ` solves the triangular system `Lᵗ γ = k(active, query)`
against the current (upper-triangular, nonzero-diagonal) Cholesky factor —
the variance-reduction term, not the raw posterior variance
`k(i,i) − ‖γᵢ‖²`. -/
theorem GpPredictCholBatch_sigma_spec (kv : ℕ → ℕ → ℚ) (st : PredictState)
    (index batchSize j : ℕ) (hj : j < batchSize)
    (hUT : ∀ a b, b < a → st.L a b = 0)
    (hdiag : ∀ a, a < st.numActive → st.L a a ≠ 0) :
    (GpPredictCholBatch kv st index batchSize).sigma (index + j)
        = ∑ i ∈ Finset.range st.numActive,
            (fwdSolve st.L (kv (index + j)) st.numActive).getD i 0 ^ 2 ∧
    ∀ r, r < st.numActive →
      ∑ i ∈ Finset.range st.numActive,
          st.L i r * (fwdSolve st.L (kv (index + j)) st.numActive).getD i 0
        = kv (index + j) r := by
  constructor
  · simp only [GpPredictCholBatch]
    rw [if_pos (by omega)]
    rfl
  · exact fwdSolve_solves st.L (kv (index + j)) st.numActive hUT hdiag

/-- Witness for C5: the batch prediction over a two-point active set with
the identity Cholesky factor. -/
theorem GpPredictCholBatch_sigma_witness :
    ((0 : ℕ) < 1) ∧
    ((GpPredictCholBatch predictWitnessKv predictWitnessState 0 1).sigma (0 + 0)
        = ∑ i ∈ Finset.range predictWitnessState.numActive,
            (fwdSolve predictWitnessState.L (predictWitnessKv (0 + 0))
              predictWitnessState.numActive).getD i 0 ^ 2 ∧
      ∀ r, r < predictWitnessState.numActive →
        ∑ i ∈ Finset.range predictWitnessState.numActive,
            predictWitnessState.L i r *
              (fwdSolve predictWitnessState.L (predictWitnessKv (0 + 0))
                predictWitnessState.numActive).getD i 0
          = predictWitnessKv (0 + 0) r) :=
  ⟨by decide,
    GpPredictCholBatch_sigma_spec predictWitnessKv predictWitnessState 0 1 0
      (by decide)
      (fun a b h => if_neg (by omega))
      (fun a _ => by simp [predictWitnessState])⟩

/-- C6: `GpPredictCholBatch` leaves the Active-Set State unchanged — the
`num_active`/`max_active` counters, kernel matrix, targets, Cholesky factor
`L`, and `alpha` are identical before and after the call — and its only
outputs are writes to `mu` and `sigma` at the query indices
`[index, index + batchSize)`. -/
theorem GpPredictCholBatch_frame (kv : ℕ → ℕ → ℚ) (st : PredictState)
    (index batchSize : ℕ) :
    (GpPredictCholBatch kv st index batchSize).numActive = st.numActive ∧
    (GpPredictCholBatch kv st index batchSize).maxActive = st.maxActive ∧
    (GpPredictCholBatch kv st index batchSize).kernelMatrix = st.kernelMatrix ∧
    (GpPredictCholBatch kv st index batchSize).targets = st.targets ∧
    (GpPredictCholBatch kv st index batchSize).L = st.L ∧
    (GpPredictCholBatch kv st index batchSize).alpha = st.alpha ∧
    ∀ i, i < index ∨ index + batchSize ≤ i →
      (GpPredictCholBatch kv st index batchSize).mu i = st.mu i ∧
      (GpPredictCholBatch kv st index batchSize).sigma i = st.sigma i := by
  refine ⟨rfl, rfl, rfl, rfl, rfl, rfl, fun i hi => ⟨?_, ?_⟩⟩ <;>
    · simp only [GpPredictCholBatch]
      rw [if_neg (by omega)]

/-- Witness for C6: a query batch at `[1, 2)` leaves `mu` and `sigma` at
index `0` unchanged. -/
theorem GpPredictCholBatch_frame_witness :
    ((0 : ℕ) < 1 ∨ 1 + 1 ≤ 0) ∧
    ((GpPredictCholBatch predictWitnessKv predictWitnessState 1 1).mu 0
        = predictWitnessState.mu 0 ∧
      (GpPredictCholBatch predictWitnessKv predictWitnessState 1 1).sigma 0
        = predictWitnessState.sigma 0) :=
  ⟨Or.inl (by decide),
    (GpPredictCholBatch_frame predictWitnessKv predictWitnessState 1 1).2.2.2.2.2.2
      0 (Or.inl (by decide))⟩

/-- C1: the incremental rank-1 Cholesky path (`UpdateChol`) and the full
re-factorization path (`SolveLinearSystemChol`) produce the same `alpha`
vector for the same admission.  If the previous factor is valid
(`Uᵀ U = K`), the new column solves `Uᵀ c = k_new` (the `cublasStrsm`
contract), and the new diagonal entry satisfies `d² = κ − ‖c‖²` (the
`compute_sqrt_var` contract), then the factor extended by `UpdateChol` is a
genuine Cholesky factor of the extended kernel matrix, and — the extended
system being nonsingular — the `alpha` obtained from the two triangular
solves against it equals the `alpha` of the full re-factorization exactly,
so `mu` and `sigma` computed from them agree as well. -/
theorem updateChol_matches_fullChol {n : ℕ} (K U : Matrix (Fin n) (Fin n) ℚ)
    (c k : Matrix (Fin n) (Fin 1) ℚ) (d κ : ℚ) (t α₁ α₂ : (Fin n ⊕ Fin 1) → ℚ)
    (hU : Uᵀ * U = K)
    (hc : Uᵀ * c = k)
    (hd : (cᵀ * c) 0 0 + d * d = κ)
    (hdetU : U.det ≠ 0) (hd0 : d ≠ 0)
    (hα₁ : ((updateCholFactor U c d)ᵀ * updateCholFactor U c d).mulVec α₁ = t)
    (hα₂ : (extendKernel K k κ).mulVec α₂ = t) :
    (updateCholFactor U c d)ᵀ * updateCholFactor U c d = extendKernel K k κ ∧
      α₁ = α₂ := by
  have hBL : cᵀ * U = kᵀ := by
    rw [← hc, Matrix.transpose_mul, Matrix.transpose_transpose]
  have hBR : cᵀ * c + (d • (1 : Matrix (Fin 1) (Fin 1) ℚ)) * (d • 1) = κ • 1 := by
    have hsq : (d • (1 : Matrix (Fin 1) (Fin 1) ℚ)) * (d • 1)
        = (d * d) • (1 : Matrix (Fin 1) (Fin 1) ℚ) := by
      rw [smul_mul_assoc, mul_smul_comm, one_mul, smul_smul]
    rw [hsq]
    ext i j
    have hi : i = 0 := Subsingleton.elim i 0
    have hj : j = 0 := Subsingleton.elim j 0
    subst hi
    subst hj
    simp only [Matrix.add_apply, Matrix.smul_apply, Matrix.one_apply_eq,
      smul_eq_mul, mul_one]
    exact hd
  have hfact : (updateCholFactor U c d)ᵀ * updateCholFactor U c d
      = extendKernel K k κ := by
    unfold updateCholFactor extendKernel
    rw [Matrix.fromBlocks_transpose, Matrix.fromBlocks_multiply]
    rw [Matrix.transpose_zero, Matrix.transpose_smul, Matrix.transpose_one]
    rw [Matrix.zero_mul, Matrix.mul_zero, Matrix.zero_mul, add_zero, add_zero,
      add_zero, hU, hc, hBL, hBR]
  refine ⟨hfact, ?_⟩
  have hvec : (extendKernel K k κ).mulVec α₁ = (extendKernel K k κ).mulVec α₂ := by
    rw [← hfact, hα₁, ← hα₂, hfact]
  have hLdet : (updateCholFactor U c d).det = U.det * d := by
    unfold updateCholFactor
    rw [Matrix.det_fromBlocks_zero₂₁]
    congr 1
    rw [Matrix.det_fin_one]
    simp
  have hdet : (extendKernel K k κ).det ≠ 0 := by
    rw [← hfact, Matrix.det_mul, Matrix.det_transpose, hLdet]
    exact mul_ne_zero (mul_ne_zero hdetU hd0) (mul_ne_zero hdetU hd0)
  have hunit : IsUnit (extendKernel K k κ).det := isUnit_iff_ne_zero.mpr hdet
  have hinv := Matrix.nonsing_inv_mul _ hunit
  calc α₁ = Matrix.mulVec 1 α₁ := (Matrix.one_mulVec α₁).symm
    _ = ((extendKernel K k κ)⁻¹ * extendKernel K k κ).mulVec α₁ := by rw [hinv]
    _ = (extendKernel K k κ)⁻¹.mulVec ((extendKernel K k κ).mulVec α₁) :=
        (Matrix.mulVec_mulVec α₁ _ _).symm
    _ = (extendKernel K k κ)⁻¹.mulVec ((extendKernel K k κ).mulVec α₂) := by rw [hvec]
    _ = ((extendKernel K k κ)⁻¹ * extendKernel K k κ).mulVec α₂ :=
        Matrix.mulVec_mulVec α₂ _ _
    _ = Matrix.mulVec 1 α₂ := by rw [hinv]
    _ = α₂ := Matrix.one_mulVec α₂

/-- Witness for C1: a one-point active set (`U = [1]`, `K = [1]`) extended
by a point with zero cross-covariance and self-covariance `1`; both paths
solve the extended system at the zero target. -/
theorem updateChol_matches_fullChol_witness :
    ((!![(1 : ℚ)])ᵀ * !![(1 : ℚ)] = !![(1 : ℚ)] ∧
      (!![(1 : ℚ)])ᵀ * !![(0 : ℚ)] = !![(0 : ℚ)] ∧
      ((!![(0 : ℚ)])ᵀ * !![(0 : ℚ)]) 0 0 + 1 * 1 = 1 ∧
      (!![(1 : ℚ)]).det ≠ 0 ∧ (1 : ℚ) ≠ 0) ∧
    ((updateCholFactor !![(1 : ℚ)] !![(0 : ℚ)] 1)ᵀ *
        updateCholFactor !![(1 : ℚ)] !![(0 : ℚ)] 1
      = extendKernel !![(1 : ℚ)] !![(0 : ℚ)] 1 ∧
      (0 : Fin 1 ⊕ Fin 1 → ℚ) = 0) := by
  have h1 : (!![(1 : ℚ)])ᵀ * !![(1 : ℚ)] = !![(1 : ℚ)] := by
    ext i j
    fin_cases i
    fin_cases j
    norm_num [Matrix.mul_apply]
  have h2 : (!![(1 : ℚ)])ᵀ * !![(0 : ℚ)] = !![(0 : ℚ)] := by
    ext i j
    fin_cases i
    fin_cases j
    norm_num [Matrix.mul_apply]
  have h3 : ((!![(0 : ℚ)])ᵀ * !![(0 : ℚ)]) 0 0 + 1 * 1 = (1 : ℚ) := by
    norm_num [Matrix.mul_apply]
  have h4 : (!![(1 : ℚ)]).det ≠ 0 := by
    rw [Matrix.det_fin_one]
    norm_num
  exact ⟨⟨h1, h2, h3, h4, one_ne_zero⟩,
    updateChol_matches_fullChol !![(1 : ℚ)] !![(1 : ℚ)] !![(0 : ℚ)] !![(0 : ℚ)]
      1 1 0 0 0 h1 h2 h3 h4 one_ne_zero
      (by rw [Matrix.mulVec_zero]) (by rw [Matrix.mulVec_zero])⟩

end GpuActiveSetSelector
